import Mathlib

/-!
Shallow embedding of `artvee_scraper/scraper.py` (class `ArtveeScraper` and its
helper enumerations), together with proofs about the behaviour of its parsing,
pagination, link-selection and worker-task logic.

Strings are modelled as `List Char`; HTTP interactions are modelled by passing
the observed response (status code plus the parts of the document the code
inspects) as an explicit argument, with a raised transport exception modelled
by `Except.error`.
-/

namespace Artvee

/-- Python's `\s` character class for `str` patterns, which coincides with the
`str.isspace` / `str.strip` whitespace set (CPython 3.11): tab, newline,
vertical tab, form feed, carriage return, the file/group/record/unit
separators `\x1c`-`\x1f`, space, next line, no-break space, ogham space mark,
the ` `-` ` spacing range, line separator, paragraph separator,
narrow no-break space, medium mathematical space and ideographic space. -/
def isSpace (c : Char) : Bool :=
  c = ' ' || c = '\t' || c = '\n' || c = '\x0b' || c = '\x0c' || c = '\r' ||
  c = '\x1c' || c = '\x1d' || c = '\x1e' || c = '\x1f' ||
  c = '\x85' || c = '\xa0' || c = '\u1680' ||
  ('\u2000' ≤ c && c ≤ '\u200a') ||
  c = '\u2028' || c = '\u2029' || c = '\u202f' || c = '\u205f' || c = '\u3000'

/-- Remove trailing whitespace (the right half of Python's `str.strip`). -/
def dropTrailing (l : List Char) : List Char :=
  (l.reverse.dropWhile isSpace).reverse

/-- Python's `str.strip()`: remove leading and trailing whitespace. -/
def pyStrip (l : List Char) : List Char :=
  dropTrailing (l.dropWhile isSpace)

/-- Every character is whitespace. -/
def allSpace (l : List Char) : Bool :=
  l.all isSpace

/-- The scan performed by the lazy group `(.+?)\)\s*$` of `_PATTERN`
(scraper.py line 49) once the literal `(` has been consumed: the group takes
the shortest nonempty run of characters that is followed by a `)` after which
only whitespace remains (`$` also matches just before one trailing newline,
but that position is subsumed: the leftover suffix is whitespace either way).
Since the pattern is compiled without `re.DOTALL`, `.` never matches a
newline, so the group cannot extend across `'\n'` and the scan dies there.
`acc` holds the reversed characters taken so far. -/
def findGroup2 (acc : List Char) : List Char → Option (List Char)
  | [] => none
  | c :: rest =>
    if c = ')' ∧ acc ≠ [] ∧ allSpace rest then some acc.reverse
    else if c = '\n' then none
    else findGroup2 (c :: acc) rest

/-- Matching `\s*\((.+?)\)\s*$` against the remainder of the input once a
candidate for group 1 has been fixed.  `\s*` is effectively deterministic
here: it must stop exactly at a `(`, and no whitespace character is `(`. -/
def matchTail (r : List Char) : Option (List Char) :=
  match r.dropWhile isSpace with
  | c :: rest => if c = '(' then findGroup2 [] rest else none
  | [] => none

/-- The backtracking loop of Python's `re.match` for
`_PATTERN = ^(.+?)\s*\((.+?)\)\s*$` (scraper.py line 49): the lazy group 1
tries ever longer nonempty prefixes, shortest first; `acc` holds the reversed
prefix taken so far.  Without `re.DOTALL` the `.` of group 1 cannot match a
newline, so the anchored prefix cannot be extended across `'\n'`: the loop
fails outright there (every shorter prefix was already tried). -/
def pyMatchGo (acc : List Char) : List Char → Option (List Char × List Char)
  | [] => none
  | c :: rest =>
    if c = '\n' then none
    else
      match matchTail rest with
      | some g2 => some ((c :: acc).reverse, g2)
      | none => pyMatchGo (c :: acc) rest

/-- `ArtveeScraper._PATTERN.match(s)` for the compiled pattern
`^(.+?)\s*\((.+?)\)\s*$` (scraper.py line 49), returning the two captured
groups on success. -/
def pyMatch (s : List Char) : Option (List Char × List Char) :=
  pyMatchGo [] s

/-- The parenthetical-splitting step applied identically to the raw title
(scraper.py lines 314-317) and to the artist text (lines 324-329): on a
pattern match the two groups are stripped and become the main text and the
trailing metadata; otherwise the input is kept whole with no metadata. -/
def splitParen (s : List Char) : List Char × Option (List Char) :=
  match pyMatch s with
  | some (g1, g2) => (pyStrip g1, some (pyStrip g2))
  | none => (s, none)

/-- A raised (catchable) Python exception, e.g. a transport failure inside
`session.get`; the code only ever logs it, never inspects it. -/
inductive PyExn
  | exn
  deriving Repr, DecidableEq

/-- The outcome of an HTTP `session.get` as observed by the caller: either a
raised transport exception, or a status code together with the portion of the
response body the caller goes on to inspect. -/
def HttpResult (α : Type) : Type :=
  Except PyExn (Nat × α)

/-- `"Unknown"`, the default used for a missing artist (scraper.py line 332)
and for the category when scraping arbitrary page URLs (line 262). -/
def unknownStr : List Char :=
  "Unknown".toList

/-- Modelled from the spec: the `Artwork` record class lives in
`artvee_scraper/artwork.py`, which is not part of the sources here.  Per the
spec's data model it is a plain data entity constructed with url/title/category
populated, whose date/artist/origin/image fields are absent until the parser or
worker task assigns them. -/
structure Artwork where
  url : Option (List Char)
  title : List Char
  category : List Char
  date : Option (List Char) := none
  artist : Option (List Char) := none
  origin : Option (List Char) := none
  image : Option (List Nat) := none
  deriving Repr, DecidableEq

/-- The `h3.product-title` element of a metadata block as used by
`_parse_metadata_html` (scraper.py lines 305-310): its first anchor child, if
any (itself carrying an optional `href` attribute), and its stripped text. -/
structure TitleElem where
  a : Option (Option (List Char))
  text : List Char
  deriving Repr, DecidableEq

/-- One `div.product-element-bottom` metadata block as consumed by
`_parse_metadata_html`: the optional title element and the optional stripped
text of the `div.woodmart-product-brands-links` artist element. -/
structure MetaBlock where
  productTitle : Option TitleElem
  artistText : Option (List Char)
  deriving Repr, DecidableEq

/-- `ArtveeScraper._parse_metadata_html` (scraper.py lines 302-342): build one
`Artwork` from a metadata block, or `none` when the title element or its
anchor is missing.  The title is split into title/date and the artist text
into artist/origin by `_PATTERN`; a missing artist element yields the artist
`"Unknown"`. -/
def parseMetadataHtml (meta : MetaBlock) (category : List Char) : Option Artwork :=
  match meta.productTitle with
  | none => none
  | some det =>
    match det.a with
    | none => none
    | some href =>
      let td := splitParen det.text
      let ao : Option (List Char) × Option (List Char) :=
        match meta.artistText with
        | some artist =>
          match pyMatch artist with
          | some (g1, g2) => (some (pyStrip g1), some (pyStrip g2))
          | none => (some artist, none)
        | none => (some unknownStr, none)
      some { url := href, title := td.1, category := category,
             date := td.2, artist := ao.1, origin := ao.2 }

/-- `ArtveeScraper._scrape_artwork_data` (scraper.py lines 257-300): given the
observed response for the listing page and the category label (`None` becomes
`"Unknown"`), parse every metadata block on a 200 response, keeping the
successfully parsed ones in page order; any other status, or a transport
exception, yields the empty list. -/
def scrapeArtworkData (resp : HttpResult (List MetaBlock))
    (category : Option (List Char)) : List Artwork :=
  let cat := category.getD unknownStr
  match resp with
  | .error _ => []
  | .ok (status, blocks) =>
    if status = 200 then blocks.filterMap (fun b => parseMetadataHtml b cat)
    else []

/-- The `CategoryType` enumeration (scraper.py lines 21-39), members in
declaration order. -/
inductive CategoryType
  | abstract
  | figurative
  | landscape
  | religion
  | mythology
  | posters
  | animals
  | illustration
  | stillLife
  | botanical
  | drawings
  | asianArt
  deriving Repr, DecidableEq

/-- The string value backing each `CategoryType` member. -/
def CategoryType.value : CategoryType → List Char
  | .abstract => "abstract".toList
  | .figurative => "figurative".toList
  | .landscape => "landscape".toList
  | .religion => "religion".toList
  | .mythology => "mythology".toList
  | .posters => "posters".toList
  | .animals => "animals".toList
  | .illustration => "illustration".toList
  | .stillLife => "still-life".toList
  | .botanical => "botanical".toList
  | .drawings => "drawings".toList
  | .asianArt => "asian-art".toList

/-- `list(CategoryType)`: every member of the enumeration, in declaration
order (this is the order Python's `Enum` iteration yields). -/
def allCategories : List CategoryType :=
  [.abstract, .figurative, .landscape, .religion, .mythology, .posters,
   .animals, .illustration, .stillLife, .botanical, .drawings, .asianArt]

/-- Line 64 of scraper.py:
`self.categories = list(CategoryType) if categories is None else categories`. -/
def initCategories (categories : Option (List CategoryType)) : List CategoryType :=
  match categories with
  | none => allCategories
  | some cs => cs

/-- Python's `str.capitalize()`: first character uppercased, every other
character lowercased. -/
def pyCapitalize (l : List Char) : List Char :=
  match l with
  | [] => []
  | c :: rest => c.toUpper :: rest.map Char.toLower

/-- The category label the orchestrator passes to `_scrape_artwork_data` when
scraping a category: `category.value.capitalize()` (scraper.py line 122). -/
def categoryLabel (c : CategoryType) : List Char :=
  pyCapitalize c.value

/-- The `ImageSize` enumeration (scraper.py lines 42-45). -/
inductive ImageSize
  | max
  | standard
  deriving Repr, DecidableEq

/-- The CDN URL root backing each `ImageSize` member. -/
def ImageSize.value : ImageSize → List Char
  | .max => "https://mdl.artvee.com/hdl/".toList
  | .standard => "https://mdl.artvee.com/sdl/".toList

/-- One candidate premium-download anchor passes the test of scraper.py line
187, `if link_dest and link_dest.startswith(self.image_size.value)`: the
`href` attribute must be present, truthy (nonempty) and start with the
selected size's URL root. -/
def linkMatches (size : ImageSize) : Option (List Char) → Bool
  | some dest => !dest.isEmpty && size.value.isPrefixOf dest
  | none => false

/-- The selection loop of `_image_link_from` (scraper.py lines 185-188): walk
the premium-download anchors in document order and return the first `href`
that passes the size-prefix test. -/
def pickLink (size : ImageSize) : List (Option (List Char)) → Option (List Char)
  | [] => none
  | link :: rest =>
    match link with
    | some dest =>
      if !dest.isEmpty && size.value.isPrefixOf dest then some dest
      else pickLink size rest
    | none => pickLink size rest

/-- `ArtveeScraper._image_link_from` (scraper.py lines 167-207), with the
detail-page response modelled as the status code plus the `href` attributes of
the premium-download anchors in document order: on a 200 response return the
first href matching the requested size tier's URL root (or `none` if no
candidate matches); return `none` on any other status or on a transport
exception. -/
def imageLinkFrom (size : ImageSize)
    (resp : HttpResult (List (Option (List Char)))) : Option (List Char) :=
  match resp with
  | .error _ => none
  | .ok (status, links) =>
    if status = 200 then pickLink size links else none

/-- `ArtveeScraper._worker_task` (scraper.py lines 133-165), with its three
effectful steps made explicit: the resolved download link (the result of
`_image_link_from`, which never raises), the image fetch (which may raise a
transport exception), and the writer call (which may raise).  The whole body
sits in a `try` whose `except` returns `False`, so the function is total and
returns a plain boolean. -/
def workerTask (link : Option (List Char))
    (imgResp : HttpResult (List Nat))
    (writeResult : Except PyExn Bool) : Bool :=
  match link with
  | some _ =>
    match imgResp with
    | .ok (status, _) =>
      if status = 200 then
        match writeResult with
        | .ok b => b
        | .error _ => false
      else false
    | .error _ => false
  | none => false

/-- `ArtveeScraper._ITEMS_PER_PAGE` (scraper.py line 48). -/
def itemsPerPage : Nat := 70

/-- Numeric value of a run of ASCII digits. -/
def digitsToNat (l : List Char) : Nat :=
  l.foldl (fun n c => 10 * n + (c.toNat - 48)) 0

/-- Matching the pattern `of\s+(\d+)\s+items` (scraper.py line 234) at the
start of the input.  Every quantified class here is disjoint from its
successor (whitespace vs digits vs the literal `i`), so greedy matching is
deterministic: each run is maximal and must be nonempty. -/
def matchOfItemsAt (l : List Char) : Option Nat :=
  match l with
  | 'o' :: 'f' :: rest =>
    let sp1 := rest.takeWhile isSpace
    let r1 := rest.dropWhile isSpace
    let ds := r1.takeWhile Char.isDigit
    let r2 := r1.dropWhile Char.isDigit
    let sp2 := r2.takeWhile isSpace
    let r3 := r2.dropWhile isSpace
    if !sp1.isEmpty && !ds.isEmpty && !sp2.isEmpty && ("items".toList).isPrefixOf r3
    then some (digitsToNat ds)
    else none
  | _ => none

/-- `re.search(r"of\s+(\d+)\s+items", text)` (scraper.py line 234): the first
(leftmost) position admitting a match wins, and the captured digit run is
returned as a number (`int(match.group(1))`, line 236). -/
def searchOfItems : List Char → Option Nat
  | [] => none
  | c :: rest =>
    match matchOfItemsAt (c :: rest) with
    | some n => some n
    | none => searchOfItems rest

/-- Round `a / b` to the nearest integer, ties to even — the IEEE 754
round-to-nearest-even rule applied to a nonnegative rational. -/
def rne (a b : Nat) : Nat :=
  let k := a / b
  let r := a % b
  if 2 * r < b then k
  else if b < 2 * r then k + 1
  else if k % 2 = 0 then k else k + 1

/-- Floor base-2 logarithm by doubling: starting from the accumulated pair
`(l, p)` with `p = 2 ^ l ≤ n`, double `p` while the next power still fits in
`n` (at most `fuel` more times) and return the final `(l, 2 ^ l)`.  Carrying
the power along avoids recomputing large exponentials. -/
def log2Acc : Nat → Nat → Nat → Nat → Nat × Nat
  | 0, _, l, p => (l, p)
  | fuel + 1, n, l, p => if 2 * p ≤ n then log2Acc fuel n (l + 1) (2 * p) else (l, p)

/-- `(L, 2 ^ L)` with `2 ^ L ≤ n < 2 ^ (L + 1)`, for `1 ≤ n < 2 ^ 1031`
(every numerator whose quotient by 70 can still be a finite double). -/
def floorLog2P (n : Nat) : Nat × Nat :=
  log2Acc 1030 n 0 1

/-- The shifted binade exponent `E = e + 7` of `n / 70` for `n ≥ 1`, where
`e` is the unique integer with `2 ^ e ≤ n / 70 < 2 ^ (e + 1)` (exact rational
division; `e ≥ -7` always since `n / 70 ≥ 1 / 70 > 2 ^ (-7)`). -/
def floatBinadeE (n : Nat) : Nat :=
  if 70 * (2 * (floorLog2P n).2) ≤ 128 * n then (floorLog2P n).1 + 1
  else (floorLog2P n).1

/-- `70 * (2 ^ 1024 - 2 ^ 970)`: the least numerator whose quotient by 70
rounds to infinity (half a unit in the last place below `2 ^ 1024`), written
with shifts so that it evaluates cheaply. -/
def overflowBound : Nat :=
  70 * ((1 <<< 1024) - (1 <<< 970))

/-- Python's `n / 70` for a nonnegative int `n` (true division producing an
IEEE 754 double, correctly rounded to nearest, ties to even), followed by
`math.ceil`.  `none` models the `OverflowError` raised when the quotient
rounds to infinity, i.e. when `n / 70 ≥ 2 ^ 1024 - 2 ^ 970` (half a unit in
the last place below the first power of two past the largest finite double).
Otherwise, with `E = floatBinadeE n`, the double is `m · 2 ^ (E - 59)` where
`m = rne(n · 2 ^ (59 - E), 70)` is the 53-bit rounded mantissa, and the
result is the exact ceiling of that dyadic value (for `E > 59` the value is
already an integer). -/
def pyCeilDiv70 (n : Nat) : Option Nat :=
  if n = 0 then some 0
  else if overflowBound ≤ n then none
  else if floatBinadeE n ≤ 59 then
    some ((rne (n * 2 ^ (59 - floatBinadeE n)) 70 + 2 ^ (59 - floatBinadeE n) - 1) /
      2 ^ (59 - floatBinadeE n))
  else
    some (rne n (70 * 2 ^ (floatBinadeE n - 59)) * 2 ^ (floatBinadeE n - 59))

/-- `ArtveeScraper._num_pages_for_category` (scraper.py lines 209-255), with
the response modelled as the status code plus the stripped text of the
`p.woocommerce-result-count` element (or `none` when that element is absent):
on a 200 response whose indicator text contains `of N items`, return
`math.ceil(total_items / 70)` — the ceiling of the double-precision float
quotient, modelled exactly by `pyCeilDiv70` (an `OverflowError` from the
division falls into the surrounding `except` and yields 0); return 0 when the
indicator is missing or unparsable, on any non-200 status, and on a transport
exception. -/
def numPagesForCategory (resp : HttpResult (Option (List Char))) : Nat :=
  match resp with
  | .error _ => 0
  | .ok (status, tag) =>
    if status = 200 then
      match tag with
      | none => 0
      | some text =>
        match searchOfItems text with
        | some n =>
          match pyCeilDiv70 n with
          | some k => k
          | none => 0
        | none => 0
    else 0

/-- The digit/underscore body of a Python integer literal after its first
digit: digits, with single underscores allowed only between digits. -/
def digitTail : List Char → Bool
  | [] => true
  | c :: rest =>
    if c = '_' then
      match rest with
      | c2 :: rest2 => c2.isDigit && digitTail rest2
      | [] => false
    else c.isDigit && digitTail rest

/-- The whitespace `int(text)` strips around its argument: CPython 3.11
accepts the `str.strip` set except the separator controls `\x1c`-`\x1f`
(checked empirically: `int("\x1c5\x1c")` raises `ValueError` while
`"\x1c5\x1c".strip()` strips). -/
def isIntSpace (c : Char) : Bool :=
  isSpace c && !(c = '\x1c' || c = '\x1d' || c = '\x1e' || c = '\x1f')

/-- Python's `int(text)` on a string (scraper.py line 366): strip surrounding
whitespace (the `int`-specific set), allow one optional sign, then require a
nonempty digit run with single underscores permitted between digits; anything
else raises `ValueError`, modelled as `none`. -/
def pyInt (l : List Char) : Option Int :=
  let s := ((l.dropWhile isIntSpace).reverse.dropWhile isIntSpace).reverse
  let sb : Int × List Char :=
    match s with
    | '-' :: r => (-1, r)
    | '+' :: r => (1, r)
    | r => (1, r)
  match sb.2 with
  | [] => none
  | c :: rest =>
    if c.isDigit && digitTail rest then
      some (sb.1 * (digitsToNat (sb.2.filter (fun x => x ≠ '_')) : Int))
    else none

/-- `ArtveeScraper._num_pages_for_page_url` (scraper.py lines 344-391), with
the response modelled as the status code plus the texts of the
`ul.page-numbers` control's elements (or `none` when the control is absent):
on a 200 response, collect every element text that `int(...)` accepts and
return the maximum; return 1 when the control is absent or no element text
parses, on any non-200 status, and on a transport exception. -/
def numPagesForPageUrl (resp : HttpResult (Option (List (List Char)))) : Int :=
  match resp with
  | .error _ => 1
  | .ok (status, pagination) =>
    if status = 200 then
      match pagination with
      | none => 1
      | some elems =>
        let pages := elems.filterMap pyInt
        match pages.max? with
        | some m => m
        | none => 1
    else 1

/-- Modelled from the spec: the lexicographically sorted order of the twelve
category values that the spec asserts the orchestrator iterates
(`"abstract", "animals", "asian-art", ..., "still-life"`). -/
def specSortedCategoryValues : List (List Char) :=
  ["abstract", "animals", "asian-art", "botanical", "drawings", "figurative",
   "illustration", "landscape", "mythology", "posters", "religion",
   "still-life"].map String.toList

/-! ### Claim C1: the worker task always returns a boolean -/

/-- Claim C1: `_worker_task` is a total boolean-valued function of its three
effectful steps — it never propagates an exception — and it returns the
writer's boolean result exactly when a download link was resolved and the
image fetch returned HTTP 200; on every failure path (missing link, non-200
image fetch, transport exception during the fetch, writer exception) it
returns `false`. -/
theorem c1_worker_task (link : Option (List Char))
    (imgResp : HttpResult (List Nat)) (wr : Except PyExn Bool) :
    (∀ b content, wr = .ok b → link.isSome → imgResp = .ok (200, content) →
      workerTask link imgResp wr = b)
    ∧ (link = none → workerTask link imgResp wr = false)
    ∧ (∀ s content, imgResp = .ok (s, content) → s ≠ 200 →
      workerTask link imgResp wr = false)
    ∧ (∀ e, imgResp = .error e → workerTask link imgResp wr = false)
    ∧ (∀ e, wr = .error e → workerTask link imgResp wr = false) := by
  refine ⟨?_, ?_, ?_, ?_, ?_⟩
  · rintro b content rfl hlink rfl
    rcases link with _ | l
    · simp at hlink
    · simp [workerTask]
  · rintro rfl
    simp [workerTask]
  · rintro s content rfl hs
    rcases link with _ | l <;> simp [workerTask, hs]
  · rintro e rfl
    rcases link with _ | l <;> simp [workerTask]
  · rintro e rfl
    rcases link with _ | l <;> rcases imgResp with e' | ⟨s, c⟩ <;>
      simp [workerTask]

/-- Witness for C1 at concrete inputs: a resolved link, a 200 image response
and a successful writer yield the writer's result; a missing link yields
`false`. -/
theorem c1_worker_task_witness :
    workerTask (some ("x".toList)) (.ok (200, [7])) (.ok true) = true
    ∧ workerTask none (.ok (200, [7])) (.ok true) = false
    ∧ workerTask (some ("x".toList)) (.ok (404, [7])) (.ok true) = false
    ∧ workerTask (some ("x".toList)) (.error .exn) (.ok true) = false
    ∧ workerTask (some ("x".toList)) (.ok (200, [7])) (.error .exn) = false :=
  ⟨(c1_worker_task _ _ _).1 true [7] rfl (by decide) rfl,
   (c1_worker_task _ _ _).2.1 rfl,
   (c1_worker_task _ _ _).2.2.1 404 [7] rfl (by decide),
   (c1_worker_task _ _ _).2.2.2.1 .exn rfl,
   (c1_worker_task _ _ _).2.2.2.2 .exn rfl⟩

/-! ### Claim C2: the split pattern is lazy, not greedy -/

/-- Claim C2 counterexample: the compiled pattern has lazy groups
(`^(.+?)\s*\((.+?)\)\s*$`), not a greedy first group, so on the title
`A (B) (C)` the split does NOT treat only the last parenthetical as trailing
metadata: it yields title `A` and date `B) (C`, not title `A (B)` and date
`C` as the claim asserts. -/
theorem c2_pattern_counterexample :
    splitParen ("A (B) (C)".toList) = ("A".toList, some ("B) (C".toList))
    ∧ splitParen ("A (B) (C)".toList) ≠ ("A (B)".toList, some ("C".toList)) := by
  decide

/-- Claim C2 (amended): the splitting follows the lazy pattern
`^(.+?)\s*\((.+?)\)\s*$` — the first group is as short as possible — so for an
input with more than one parenthesized group, such as `A (B) (C)`, the split
opens the trailing metadata at the FIRST parenthesis: cleaned title `A`,
date `B) (C`.  A single trailing parenthetical is still split as expected. -/
theorem c2_pattern_amended :
    splitParen ("A (B) (C)".toList) = ("A".toList, some ("B) (C".toList))
    ∧ splitParen ("Still Life (c. 1650)".toList) =
        ("Still Life".toList, some ("c. 1650".toList)) := by
  decide

/-! ### Claim C8: default category iteration order -/

/-- Claim C8 counterexample: with no category list, the scraper iterates
`list(CategoryType)`, which is the enum's declaration order, and that order
is not the lexicographically sorted order of the underlying values claimed by
the spec (the second member is `figurative`, not `animals`). -/
theorem c8_sorted_counterexample :
    (initCategories none).map CategoryType.value ≠ specSortedCategoryValues
    ∧ ((initCategories none).map CategoryType.value).get? 1 =
        some ("figurative".toList)
    ∧ specSortedCategoryValues.get? 1 = some ("animals".toList) := by
  decide

/-- Claim C8 (amended): when constructed with no category list, the
orchestrator iterates all 12 categories — each exactly once — in the enum's
declaration order (abstract, figurative, landscape, religion, mythology,
posters, animals, illustration, still-life, botanical, drawings, asian-art),
which is not the lexicographically sorted order of the values. -/
theorem c8_declaration_order (c : CategoryType) :
    (initCategories none).map CategoryType.value =
      ["abstract", "figurative", "landscape", "religion", "mythology",
       "posters", "animals", "illustration", "still-life", "botanical",
       "drawings", "asian-art"].map String.toList
    ∧ (initCategories none).length = 12
    ∧ (initCategories none).Nodup
    ∧ c ∈ initCategories none := by
  refine ⟨by decide, by decide, by decide, ?_⟩
  cases c <;> decide

/-! ### Lemmas about the `_PATTERN` matching engine -/

theorem matchTail_none_of_no_lparen {r : List Char} (h : '(' ∉ r) :
    matchTail r = none := by
  rcases hd : r.dropWhile isSpace with _ | ⟨c, rest⟩
  · simp [matchTail, hd]
  · have hc : c ∈ r :=
      (List.dropWhile_sublist isSpace).mem (hd ▸ List.mem_cons_self c rest)
    have hne : c ≠ '(' := fun he => h (he ▸ hc)
    simp [matchTail, hd, hne]

theorem findGroup2_run {d w : List Char} (hd : ')' ∉ d) (hdn : '\n' ∉ d)
    (hw : allSpace w = true) :
    ∀ acc : List Char, d ≠ [] ∨ acc ≠ [] →
      findGroup2 acc (d ++ ')' :: w) = some (acc.reverse ++ d) := by
  induction d with
  | nil =>
    intro acc hne
    have hacc : acc ≠ [] := by
      rcases hne with h | h
      · exact absurd rfl h
      · exact h
    simp [findGroup2, hacc, hw]
  | cons c d' ih =>
    intro acc _
    have hc : c ≠ ')' := fun he => hd (he ▸ List.mem_cons_self c d')
    have hcn : c ≠ '\n' := fun he => hdn (he ▸ List.mem_cons_self c d')
    have hd' : ')' ∉ d' := fun hm => hd (List.mem_cons_of_mem _ hm)
    have hdn' : '\n' ∉ d' := fun hm => hdn (List.mem_cons_of_mem _ hm)
    rw [List.cons_append]
    simp only [findGroup2, hc, hcn, false_and, if_false]
    rw [ih hd' hdn' (c :: acc) (Or.inr (by simp))]
    simp

theorem matchTail_found {w0 d w : List Char} (h0 : allSpace w0 = true)
    (hd : ')' ∉ d) (hdn : '\n' ∉ d) (hdne : d ≠ []) (hw : allSpace w = true) :
    matchTail (w0 ++ '(' :: (d ++ ')' :: w)) = some d := by
  have hall : ∀ a ∈ w0, isSpace a := List.all_eq_true.mp h0
  have hlp : isSpace '(' = false := by decide
  have h1 : (w0 ++ '(' :: (d ++ ')' :: w)).dropWhile isSpace =
      '(' :: (d ++ ')' :: w) := by
    rw [List.dropWhile_append_of_pos hall, List.dropWhile_cons]
    simp [hlp]
  simp only [matchTail, h1, if_pos rfl]
  rw [findGroup2_run hd hdn hw [] (Or.inl hdne)]
  simp

theorem matchTail_mid {v : List Char} (c0 : Char) {z : List Char}
    (hv : '(' ∉ v) (hc0s : isSpace c0 = false) (hc0 : c0 ≠ '(') :
    matchTail (v ++ c0 :: z) = none := by
  induction v with
  | nil => simp [matchTail, List.dropWhile_cons, hc0s, hc0]
  | cons a v' ih =>
    by_cases hsa : isSpace a
    · have heq : matchTail (a :: v' ++ c0 :: z) = matchTail (v' ++ c0 :: z) := by
        unfold matchTail
        rw [List.cons_append, List.dropWhile_cons, if_pos hsa]
      rw [heq]
      exact ih (fun hm => hv (List.mem_cons_of_mem _ hm))
    · have hane : a ≠ '(' := fun he => hv (he ▸ List.mem_cons_self a v')
      simp [matchTail, List.dropWhile_cons, hsa, hane]

theorem pyMatchGo_run {t2 : List Char} (c0 : Char) {z d : List Char}
    (ht : '(' ∉ t2) (htn : '\n' ∉ t2) (hc0s : isSpace c0 = false) (hc0 : c0 ≠ '(')
    (hz : matchTail z = some d) :
    ∀ acc, pyMatchGo acc (t2 ++ c0 :: z) = some ((acc.reverse ++ t2) ++ [c0], d) := by
  have hc0n : c0 ≠ '\n' := by
    intro he
    rw [he] at hc0s
    exact absurd hc0s (by decide)
  induction t2 with
  | nil => intro acc; simp [pyMatchGo, hc0n, hz]
  | cons a u ih =>
    intro acc
    have han : a ≠ '\n' := fun he => htn (he ▸ List.mem_cons_self a u)
    have hmt : matchTail (u ++ c0 :: z) = none :=
      matchTail_mid c0 (fun hm => ht (List.mem_cons_of_mem _ hm)) hc0s hc0
    rw [List.cons_append]
    simp only [pyMatchGo, han, if_false, hmt]
    rw [ih (fun hm => ht (List.mem_cons_of_mem _ hm))
      (fun hm => htn (List.mem_cons_of_mem _ hm)) (a :: acc)]
    simp

theorem pyMatchGo_none :
    ∀ (s : List Char), '(' ∉ s → ∀ acc, pyMatchGo acc s = none
  | [], _, _ => rfl
  | c :: rest, h, acc => by
    by_cases hcn : c = '\n'
    · simp [pyMatchGo, hcn]
    · have h1 : matchTail rest = none :=
        matchTail_none_of_no_lparen (fun hm => h (List.mem_cons_of_mem _ hm))
      have h2 := pyMatchGo_none rest (fun hm => h (List.mem_cons_of_mem _ hm)) (c :: acc)
      simp [pyMatchGo, hcn, h1, h2]

theorem pyMatch_none_of_no_lparen {s : List Char} (h : '(' ∉ s) :
    pyMatch s = none :=
  pyMatchGo_none s h []

theorem dropTrailing_decomp (t : List Char) :
    t = dropTrailing t ++ (t.reverse.takeWhile isSpace).reverse
    ∧ allSpace ((t.reverse.takeWhile isSpace).reverse) = true := by
  constructor
  · conv_lhs => rw [← t.reverse_reverse, ← List.takeWhile_append_dropWhile isSpace t.reverse]
    rw [List.reverse_append]
    rfl
  · rw [allSpace, List.all_eq_true]
    intro x hx
    exact List.mem_takeWhile_imp (List.mem_reverse.mp hx)

theorem dropTrailing_last {t : List Char} (h : dropTrailing t ≠ []) :
    ∃ t2 c0, dropTrailing t = t2 ++ [c0] ∧ isSpace c0 = false := by
  have hu : t.reverse.dropWhile isSpace ≠ [] := by
    intro he
    exact h (by simp [dropTrailing, he])
  obtain ⟨c, u2, hcu⟩ := List.exists_cons_of_ne_nil hu
  refine ⟨u2.reverse, c, by simp [dropTrailing, hcu], ?_⟩
  have h2 := List.head_dropWhile_not isSpace t.reverse hu
  have h3 : (List.dropWhile isSpace t.reverse).head? = some c := by rw [hcu]; rfl
  rw [List.head?_eq_head hu] at h3
  rw [Option.some_inj.mp h3] at h2
  exact h2

theorem dropTrailing_append_space {x w : List Char} (hw : allSpace w = true) :
    dropTrailing (x ++ w) = dropTrailing x := by
  unfold dropTrailing
  rw [List.reverse_append,
    List.dropWhile_append_of_pos (by
      intro a ha
      exact List.all_eq_true.mp hw a (List.mem_reverse.mp ha))]

theorem pyStrip_dropTrailing (t : List Char) :
    pyStrip (dropTrailing t) = pyStrip t := by
  obtain ⟨hdec, hsp⟩ := dropTrailing_decomp t
  by_cases h : dropTrailing t = []
  · have hall : t.dropWhile isSpace = [] := by
      rw [List.dropWhile_eq_nil_iff]
      intro x hx
      have hx2 : x ∈ dropTrailing t ++ (t.reverse.takeWhile isSpace).reverse := hdec ▸ hx
      rw [h, List.nil_append] at hx2
      exact List.all_eq_true.mp hsp x hx2
    rw [h]
    simp [pyStrip, hall, dropTrailing]
  · have hne : (dropTrailing t).dropWhile isSpace ≠ [] := by
      rw [Ne, List.dropWhile_eq_nil_iff]
      intro hall
      obtain ⟨t2, c0, he, hc0⟩ := dropTrailing_last h
      have hsp0 : isSpace c0 = true := hall c0 (he ▸ by simp)
      rw [hc0] at hsp0
      exact absurd hsp0 (by simp)
    rw [pyStrip, pyStrip]
    conv_rhs => rw [show t = dropTrailing t ++ (t.reverse.takeWhile isSpace).reverse from hdec]
    rw [List.dropWhile_append, if_neg (by simpa [List.isEmpty_iff] using hne),
      dropTrailing_append_space hsp]

/-- The full behaviour of `_PATTERN.match` on a title of the shape
`<text>(<date>)<trailing whitespace>` where `<text>` contains no `(`, ends in
a non-whitespace character, and `<date>` is nonempty and contains no `)`:
lazy group 1 captures `<text>` minus its trailing whitespace and group 2
captures `<date>`. -/
theorem pyMatch_title {t d w : List Char} (ht0 : dropTrailing t ≠ [])
    (ht : '(' ∉ t) (htn : '\n' ∉ t) (hdne : d ≠ []) (hd : ')' ∉ d)
    (hdn : '\n' ∉ d) (hw : allSpace w = true) :
    pyMatch (t ++ '(' :: (d ++ ')' :: w)) = some (dropTrailing t, d) := by
  obtain ⟨hdec, hsp⟩ := dropTrailing_decomp t
  obtain ⟨t2, c0, he, hc0s⟩ := dropTrailing_last ht0
  have h1 : '(' ∉ dropTrailing t := fun hm => ht (hdec ▸ List.mem_append_left _ hm)
  have h1n : '\n' ∉ dropTrailing t := fun hm => htn (hdec ▸ List.mem_append_left _ hm)
  have ht2 : '(' ∉ t2 := fun hm => h1 (he ▸ List.mem_append_left _ hm)
  have ht2n : '\n' ∉ t2 := fun hm => h1n (he ▸ List.mem_append_left _ hm)
  have hc0 : c0 ≠ '(' := fun heq =>
    h1 (he ▸ List.mem_append_right _ (heq ▸ List.mem_singleton_self c0))
  have hz : matchTail ((t.reverse.takeWhile isSpace).reverse ++ '(' :: (d ++ ')' :: w)) =
      some d := matchTail_found hsp hd hdn hdne hw
  have hassoc : t ++ '(' :: (d ++ ')' :: w) =
      t2 ++ c0 :: ((t.reverse.takeWhile isSpace).reverse ++ '(' :: (d ++ ')' :: w)) := by
    conv_lhs => rw [hdec, he]
    simp
  rw [pyMatch, hassoc, pyMatchGo_run c0 ht2 ht2n hc0s hc0 hz []]
  simp [he]

/-! ### Claim C3: title/date splitting on the listing page -/

/-- Claim C3: for a raw title of the form `<title>(<date>)` followed by
optional whitespace — `<title>` nonempty, free of `(` and of newlines (which
the pattern's `.` cannot match), `<date>` nonempty, free of `)` and of
newlines, and already stripped (a single trailing parenthetical) — the parser
stores the whitespace-stripped `<title>` as the record's title and `<date>`
as its date; and a raw title the pattern does not match — in particular any
title containing no parenthesis — is stored unchanged with the date unset. -/
theorem c3_title_date (t d w raw : List Char) (href atx : Option (List Char))
    (cat : List Char) :
    (dropTrailing t ≠ [] → '(' ∉ t → '\n' ∉ t → d ≠ [] → ')' ∉ d → '\n' ∉ d →
      pyStrip d = d → allSpace w = true →
      (parseMetadataHtml ⟨some ⟨some href, t ++ '(' :: (d ++ ')' :: w)⟩, atx⟩ cat).map
          (fun a => (a.title, a.date)) = some (pyStrip t, some d))
    ∧ ('(' ∉ raw → pyMatch raw = none)
    ∧ (pyMatch raw = none →
      (parseMetadataHtml ⟨some ⟨some href, raw⟩, atx⟩ cat).map
          (fun a => (a.title, a.date)) = some (raw, none)) := by
  refine ⟨?_, ?_, ?_⟩
  · intro ht0 ht htn hdne hd hdn hds hw
    have hm := pyMatch_title ht0 ht htn hdne hd hdn hw
    simp only [parseMetadataHtml, splitParen, hm, Option.map_some']
    rw [pyStrip_dropTrailing, hds]
  · intro hraw
    exact pyMatch_none_of_no_lparen hraw
  · intro hm
    simp only [parseMetadataHtml, splitParen, hm, Option.map_some']

/-- Witness for C3 at concrete titles: `"Irises (1889)"` parses to title
`"Irises"` and date `"1889"`; `"Irises"` alone is stored unchanged with no
date; and `"X\nY(1889)"` does not match (the pattern's `.` cannot cross the
newline), so it too is stored whole with no date. -/
theorem c3_title_date_witness :
    (parseMetadataHtml ⟨some ⟨some (some ("u".toList)), "Irises (1889)".toList⟩, none⟩
        ("Cat".toList)).map (fun a => (a.title, a.date)) =
      some (pyStrip ("Irises ".toList), some ("1889".toList))
    ∧ (parseMetadataHtml ⟨some ⟨some (some ("u".toList)), "Irises".toList⟩, none⟩
        ("Cat".toList)).map (fun a => (a.title, a.date)) =
      some ("Irises".toList, none)
    ∧ (parseMetadataHtml ⟨some ⟨some (some ("u".toList)), "X\nY(1889)".toList⟩, none⟩
        ("Cat".toList)).map (fun a => (a.title, a.date)) =
      some ("X\nY(1889)".toList, none) := by
  refine ⟨?_, ?_, ?_⟩
  · have h := (c3_title_date ("Irises ".toList) ("1889".toList) [] []
      (some ("u".toList)) none ("Cat".toList)).1
      (by decide) (by decide) (by decide) (by decide) (by decide) (by decide)
      (by decide) (by decide)
    exact h
  · exact (c3_title_date [] [] [] ("Irises".toList)
      (some ("u".toList)) none ("Cat".toList)).2.2 (by decide)
  · exact (c3_title_date [] [] [] ("X\nY(1889)".toList)
      (some ("u".toList)) none ("Cat".toList)).2.2 (by decide)

/-! ### Claim C9: artist/origin handling -/

/-- Claim C9: in `_parse_metadata_html`, a missing artist element yields
artist `"Unknown"` with the record still produced; an artist text matched by
the pattern yields the stripped first group as artist and the stripped second
group as origin; an unmatched artist text becomes the artist whole, with the
origin unset. -/
theorem c9_artist_origin (href : Option (List Char)) (ti atx cat g1 g2 : List Char) :
    ((parseMetadataHtml ⟨some ⟨some href, ti⟩, none⟩ cat).map
        (fun a => (a.artist, a.origin)) = some (some unknownStr, none))
    ∧ (pyMatch atx = some (g1, g2) →
      (parseMetadataHtml ⟨some ⟨some href, ti⟩, some atx⟩ cat).map
          (fun a => (a.artist, a.origin)) =
        some (some (pyStrip g1), some (pyStrip g2)))
    ∧ (pyMatch atx = none →
      (parseMetadataHtml ⟨some ⟨some href, ti⟩, some atx⟩ cat).map
          (fun a => (a.artist, a.origin)) = some (some atx, none)) := by
    refine ⟨?_, ?_, ?_⟩
    · simp [parseMetadataHtml]
    · intro h
      simp [parseMetadataHtml, h]
    · intro h
      simp [parseMetadataHtml, h]

/-- Witness for C9 at concrete artist texts: a missing artist element, a
matching text `"Vincent van Gogh (Dutch, 1853 - 1890)"`, and a non-matching
text `"Banksy"`. -/
theorem c9_artist_origin_witness :
    ((parseMetadataHtml ⟨some ⟨some (some ("u".toList)), "T".toList⟩, none⟩
        ("Cat".toList)).map (fun a => (a.artist, a.origin)) =
      some (some unknownStr, none))
    ∧ ((parseMetadataHtml ⟨some ⟨some (some ("u".toList)), "T".toList⟩,
        some ("Vincent van Gogh (Dutch, 1853 - 1890)".toList)⟩ ("Cat".toList)).map
          (fun a => (a.artist, a.origin)) =
      some (some (pyStrip ("Vincent van Gogh".toList)),
        some (pyStrip ("Dutch, 1853 - 1890".toList))))
    ∧ ((parseMetadataHtml ⟨some ⟨some (some ("u".toList)), "T".toList⟩,
        some ("Banksy".toList)⟩ ("Cat".toList)).map
          (fun a => (a.artist, a.origin)) = some (some ("Banksy".toList), none)) :=
  ⟨(c9_artist_origin (some ("u".toList)) ("T".toList) [] ("Cat".toList) [] []).1,
   (c9_artist_origin (some ("u".toList)) ("T".toList)
      ("Vincent van Gogh (Dutch, 1853 - 1890)".toList) ("Cat".toList)
      ("Vincent van Gogh".toList) ("Dutch, 1853 - 1890".toList)).2.1 (by decide),
   (c9_artist_origin (some ("u".toList)) ("T".toList) ("Banksy".toList)
      ("Cat".toList) [] []).2.2 (by decide)⟩

/-! ### Claim C10: the category label carried by scraped records -/

theorem parseMetadataHtml_category {b : MetaBlock} {cat : List Char} {a : Artwork}
    (h : parseMetadataHtml b cat = some a) : a.category = cat := by
  rcases b with ⟨pt, atx⟩
  rcases pt with _ | ⟨⟨ha, ti⟩⟩
  · simp [parseMetadataHtml] at h
  · rcases ha with _ | href
    · simp [parseMetadataHtml] at h
    · rw [parseMetadataHtml] at h
      simp only [Option.some_inj] at h
      rw [← h]

theorem scrapeArtworkData_category {resp : HttpResult (List MetaBlock)}
    {cat : Option (List Char)} {a : Artwork}
    (h : a ∈ scrapeArtworkData resp cat) : a.category = cat.getD unknownStr := by
  rcases resp with e | ⟨s, blocks⟩
  · simp [scrapeArtworkData] at h
  · rw [scrapeArtworkData] at h
    by_cases hs : s = 200
    · rw [if_pos hs] at h
      obtain ⟨b, _, hb⟩ := List.mem_filterMap.mp h
      exact parseMetadataHtml_category hb
    · rw [if_neg hs] at h
      simp at h

/-- Claim C10: every record produced while scraping a category carries the
label `category.value.capitalize()` — first character uppercased, the rest
lowercased (e.g. `Still-life`, `Asian-art`) — never the raw lowercase enum
value; records scraped from explicit page URLs (category `None`) carry the
label `"Unknown"`. -/
theorem c10_category_label (c : CategoryType) (resp : HttpResult (List MetaBlock))
    (a : Artwork) :
    (a ∈ scrapeArtworkData resp (some (categoryLabel c)) →
      a.category = pyCapitalize c.value)
    ∧ (a ∈ scrapeArtworkData resp none → a.category = unknownStr)
    ∧ categoryLabel c ≠ c.value
    ∧ categoryLabel .stillLife = "Still-life".toList
    ∧ categoryLabel .asianArt = "Asian-art".toList := by
  refine ⟨?_, ?_, ?_, by decide, by decide⟩
  · intro h
    exact scrapeArtworkData_category h
  · intro h
    exact scrapeArtworkData_category h
  · cases c <;> decide

/-- Witness for C10: a concrete block scraped under category `still-life`
carries the label `Still-life`, and the same block scraped with no category
carries `Unknown`. -/
theorem c10_category_label_witness :
    (Artwork.category ⟨some ("u".toList), "T".toList, "Still-life".toList,
        none, some unknownStr, none, none⟩
      = pyCapitalize CategoryType.stillLife.value)
    ∧ (Artwork.category ⟨some ("u".toList), "T".toList, "Unknown".toList,
        none, some unknownStr, none, none⟩ = unknownStr) :=
  ⟨(c10_category_label .stillLife
      (.ok (200, [⟨some ⟨some (some ("u".toList)), "T".toList⟩, none⟩]))
      ⟨some ("u".toList), "T".toList, "Still-life".toList,
        none, some unknownStr, none, none⟩).1 (by decide),
   (c10_category_label .stillLife
      (.ok (200, [⟨some ⟨some (some ("u".toList)), "T".toList⟩, none⟩]))
      ⟨some ("u".toList), "T".toList, "Unknown".toList,
        none, some unknownStr, none, none⟩).2.1 (by decide)⟩

/-! ### Claim C4: pagination by category -/

/-- `math.ceil(n / 70)` agrees with the natural ceiling division used in the
embedding. -/
theorem ceilDiv_eq_nat_ceil (n : ℕ) :
    n ⌈/⌉ itemsPerPage = ⌈(n : ℚ) / (itemsPerPage : ℚ)⌉₊ := by
  have h70 : itemsPerPage = 70 := rfl
  rw [h70, Nat.ceilDiv_eq_add_pred_div]
  push_cast
  rcases Nat.eq_zero_or_pos n with h0 | hpos
  · subst h0
    norm_num
  · have hk : (n + 69) / 70 ≠ 0 := by
      have h1 : 70 ≤ n + 69 := by omega
      have h2 := (Nat.one_le_div_iff (by norm_num : 0 < 70)).mpr h1
      omega
    symm
    rw [Nat.ceil_eq_iff hk]
    have hdm := Nat.div_add_mod (n + 69) 70
    have hmlt : (n + 69) % 70 < 70 := Nat.mod_lt _ (by norm_num)
    set k := (n + 69) / 70 with hkdef
    have hk1 : 1 ≤ k := Nat.one_le_iff_ne_zero.mpr hk
    constructor
    · rw [lt_div_iff₀ (by norm_num : (0:ℚ) < 70)]
      exact_mod_cast (by omega : (k - 1) * 70 < n)
    · rw [div_le_iff₀ (by norm_num : (0:ℚ) < 70)]
      exact_mod_cast (by omega : n ≤ k * 70)

theorem rne_bounds (a b : Nat) (hb : 0 < b) :
    2 * b * rne a b ≤ 2 * a + b ∧ 2 * a ≤ 2 * b * rne a b + b := by
  have hdm : b * (a / b) + a % b = a := Nat.div_add_mod a b
  have hmlt : a % b < b := Nat.mod_lt _ hb
  have hassoc1 : 2 * b * (a / b) = 2 * (b * (a / b)) := by ring
  have hassoc2 : 2 * b * (a / b + 1) = 2 * (b * (a / b)) + 2 * b := by ring
  simp only [rne]
  split_ifs with h1 h2 h3
  · rw [hassoc1]
    generalize b * (a / b) = D at hdm ⊢
    omega
  · rw [hassoc2]
    generalize b * (a / b) = D at hdm ⊢
    omega
  · rw [hassoc1]
    generalize b * (a / b) = D at hdm ⊢
    omega
  · rw [hassoc2]
    generalize b * (a / b) = D at hdm ⊢
    omega

theorem log2Acc_spec (fuel n : Nat) :
    ∀ l p, 0 < p → p ≤ n →
      (log2Acc fuel n l p).2 ≤ n ∧
      l ≤ (log2Acc fuel n l p).1 ∧
      (log2Acc fuel n l p).2 = p * 2 ^ ((log2Acc fuel n l p).1 - l) := by
  induction fuel with
  | zero =>
    intro l p _ hpn
    exact ⟨hpn, le_refl l, by simp [log2Acc]⟩
  | succ fuel ih =>
    intro l p hp hpn
    rw [log2Acc]
    split_ifs with h
    · have h2p : 0 < 2 * p := by omega
      obtain ⟨ha, hb, hc⟩ := ih (l + 1) (2 * p) h2p h
      refine ⟨ha, by omega, ?_⟩
      rw [hc]
      have hstep : (log2Acc fuel n (l + 1) (2 * p)).1 - l =
          ((log2Acc fuel n (l + 1) (2 * p)).1 - (l + 1)) + 1 := by omega
      rw [hstep, pow_succ]
      ring
    · exact ⟨hpn, le_refl l, by simp⟩

theorem floorLog2P_spec {n : Nat} (hn : 1 ≤ n) :
    (floorLog2P n).2 ≤ n ∧ (floorLog2P n).2 = 2 ^ (floorLog2P n).1 := by
  obtain ⟨ha, _, hc⟩ := log2Acc_spec 1030 n 0 1 (by norm_num) hn
  exact ⟨ha, by simpa using hc⟩

theorem floatBinadeE_le {n : Nat} (hn : 1 ≤ n) (hlt : n < 70 * 2 ^ 47) :
    floatBinadeE n ≤ 53 := by
  obtain ⟨hle, heq⟩ := floorLog2P_spec hn
  rw [heq] at hle
  have hn54 : n < 2 ^ 54 := by
    have h1 : (70 * 2 ^ 47 : Nat) < 2 ^ 54 := by norm_num
    omega
  have hL : (floorLog2P n).1 ≤ 53 := by
    by_contra hgt
    push_neg at hgt
    have h1 : (2 : Nat) ^ 54 ≤ 2 ^ (floorLog2P n).1 :=
      Nat.pow_le_pow_right (by norm_num) hgt
    exact absurd ((h1.trans hle).trans_lt hn54) (lt_irrefl _)
  rw [floatBinadeE]
  split_ifs with hc
  · rcases Nat.lt_or_ge (floorLog2P n).1 53 with h | h
    · omega
    · exfalso
      have hL53 : (floorLog2P n).1 = 53 := le_antisymm hL h
      rw [heq, hL53] at hc
      norm_num at hc hlt
      omega
  · exact hL

theorem rne_ceil_div70 {n p : Nat} (hp : 64 ≤ p) :
    (rne (n * p) 70 + p - 1) / p = (n + 69) / 70 := by
  obtain ⟨hb1, hb2⟩ := rne_bounds (n * p) 70 (by norm_num)
  set m := rne (n * p) 70 with hm
  have hK : 70 * (n / 70) + n % 70 = n := Nat.div_add_mod n 70
  set K := n / 70 with hKdef
  set r := n % 70 with hrdef
  have hrlt : r < 70 := Nat.mod_lt _ (by norm_num)
  have hnp : 2 * (n * p) = 140 * (K * p) + 2 * (r * p) := by
    have hn' : n = 70 * K + r := by omega
    rw [hn']
    ring
  rw [hnp] at hb1 hb2
  have hRHS : (n + 69) / 70 = K + (r + 69) / 70 := by
    have hsum : n + 69 = 70 * K + (r + 69) := by omega
    rw [hsum, Nat.mul_add_div (by norm_num : 0 < 70)]
  rcases Nat.eq_zero_or_pos r with h0 | hpos
  · have hB0 : r * p = 0 := by rw [h0, Nat.zero_mul]
    rw [hB0] at hb1 hb2
    have hmA : m = K * p := by
      generalize K * p = A at hb1 hb2 ⊢
      omega
    rw [hmA, hRHS, h0]
    have h69 : (69 : Nat) / 70 = 0 := by norm_num
    rw [h69, Nat.add_zero]
    have he : K * p + p - 1 = p * K + (p - 1) := by
      rw [Nat.mul_comm]
      omega
    rw [he, Nat.mul_add_div (by omega : 0 < p)]
    have hz : (p - 1) / p = 0 := Nat.div_eq_of_lt (by omega)
    rw [hz, Nat.add_zero]
  · have e2 : p ≤ r * p := by
      calc p = 1 * p := (Nat.one_mul p).symm
      _ ≤ r * p := Nat.mul_le_mul_right p hpos
    have e3 : r * p ≤ 69 * p := Nat.mul_le_mul_right p (by omega)
    have hlow : K * p + 1 ≤ m := by
      generalize K * p = A at hb2 ⊢
      generalize r * p = B at hb2 e2
      omega
    have hhigh : m ≤ K * p + p := by
      generalize K * p = A at hb1 ⊢
      generalize r * p = B at hb1 e3
      omega
    have hL : (m + p - 1) / p = K + 1 := by
      have hlo : (K + 1) * p ≤ m + p - 1 := by
        have hexp : (K + 1) * p = K * p + p := by ring
        rw [hexp]
        generalize K * p = A at hlow ⊢
        omega
      have hhi : m + p - 1 < (K + 1 + 1) * p := by
        have hexp : (K + 1 + 1) * p = K * p + p + p := by ring
        rw [hexp]
        generalize K * p = A at hhigh ⊢
        omega
      exact Nat.div_eq_of_lt_le hlo hhi
    rw [hL, hRHS]
    have h1 : (r + 69) / 70 = 1 := by
      apply Nat.div_eq_of_lt_le <;> omega
    rw [h1]

/-- Below `70 · 2 ^ 47` the double-precision quotient is close enough to the
exact one that its ceiling is the exact ceiling: the fractional part of
`n / 70`, when nonzero, is at least `1 / 70`, which exceeds half an ulp
(`2 ^ (e - 53) ≤ 2 ^ (-7)` there). -/
theorem pyCeilDiv70_exact {n : Nat} (hlt : n < 70 * 2 ^ 47) :
    pyCeilDiv70 n = some ((n + 69) / 70) := by
  rcases Nat.eq_zero_or_pos n with h0 | hpos
  · subst h0
    norm_num [pyCeilDiv70]
  · have hnz : ¬ n = 0 := by omega
    have hov : ¬ overflowBound ≤ n := by
      have h1 : (70 * 2 ^ 47 : Nat) ≤ overflowBound := by
        norm_num [overflowBound, Nat.shiftLeft_eq]
      omega
    have hE : floatBinadeE n ≤ 59 := le_trans (floatBinadeE_le hpos hlt) (by norm_num)
    rw [pyCeilDiv70, if_neg hnz, if_neg hov, if_pos hE]
    congr 1
    have hp : 64 ≤ 2 ^ (59 - floatBinadeE n) := by
      have h6 : 6 ≤ 59 - floatBinadeE n := by
        have := floatBinadeE_le hpos hlt
        omega
      calc (64 : Nat) = 2 ^ 6 := by norm_num
      _ ≤ 2 ^ (59 - floatBinadeE n) := Nat.pow_le_pow_right (by norm_num) h6
    exact rne_ceil_div70 hp

/-- Claim C4 counterexample: the program computes
`math.ceil(total_items / 70)` with double-precision float division, not the
exact ceiling.  At N = 70 · 2^47 + 1 = 9851624184872961 the true quotient
2^47 + 1/70 lies less than half an ulp (1/64) above 2^47, so the float
quotient rounds down to exactly 2^47 and the resolver returns
140737488355328, while the exact ceiling the claim asserts is
140737488355329. -/
theorem c4_float_counterexample :
    numPagesForCategory (.ok (200, some ("of 9851624184872961 items".toList))) =
      140737488355328
    ∧ (9851624184872961 : Nat) ⌈/⌉ itemsPerPage = 140737488355329 := by
  constructor
  · decide
  · decide

/-- Claim C4 (amended): on a 200 response whose indicator text contains a
match for `of N items`, the resolver returns `math.ceil` of the
double-precision float quotient N / 70.  For every N below 70 · 2^47 — every
realistic catalogue size, including the spec's example — this equals the
exact ceiling of N / 70; in general the result is the float quotient's
ceiling, and a float overflow (astronomically large N) is caught and yields
0.  It returns 0 when the indicator element is missing or its text contains
no such match, and 0 on any non-200 response or transport exception. -/
theorem c4_category_pages :
    (∀ text n, searchOfItems text = some n → n < 70 * 2 ^ 47 →
      numPagesForCategory (.ok (200, some text)) = n ⌈/⌉ itemsPerPage
      ∧ numPagesForCategory (.ok (200, some text)) = ⌈(n : ℚ) / (itemsPerPage : ℚ)⌉₊)
    ∧ (∀ text n k, searchOfItems text = some n → pyCeilDiv70 n = some k →
      numPagesForCategory (.ok (200, some text)) = k)
    ∧ (∀ text n, searchOfItems text = some n → pyCeilDiv70 n = none →
      numPagesForCategory (.ok (200, some text)) = 0)
    ∧ numPagesForCategory (.ok (200, none)) = 0
    ∧ (∀ text, searchOfItems text = none →
      numPagesForCategory (.ok (200, some text)) = 0)
    ∧ (∀ s tag, s ≠ 200 → numPagesForCategory (.ok (s, tag)) = 0)
    ∧ (∀ e, numPagesForCategory (.error e) = 0) := by
  refine ⟨?_, ?_, ?_, by simp [numPagesForCategory], ?_, ?_, ?_⟩
  · intro text n h hlt
    have hbase : numPagesForCategory (.ok (200, some text)) = (n + 69) / 70 := by
      simp [numPagesForCategory, h, pyCeilDiv70_exact hlt]
    constructor
    · rw [hbase, Nat.ceilDiv_eq_add_pred_div]
      show (n + 69) / 70 = (n + 70 - 1) / 70
      omega
    · rw [hbase, ← ceilDiv_eq_nat_ceil, Nat.ceilDiv_eq_add_pred_div]
      show (n + 69) / 70 = (n + 70 - 1) / 70
      omega
  · intro text n k h hk
    simp [numPagesForCategory, h, hk]
  · intro text n h hk
    simp [numPagesForCategory, h, hk]
  · intro text h
    simp [numPagesForCategory, h]
  · intro s tag hs
    simp [numPagesForCategory, hs]
  · intro e
    rfl

/-- Witness for C4 at the spec's own example: the indicator text
`"Showing 1-70 of 134 items"` yields the exact ceiling of 134 / 70 (the float
path computes the same value, 2), and unparsable or failing responses yield
0. -/
theorem c4_category_pages_witness :
    numPagesForCategory (.ok (200, some ("Showing 1-70 of 134 items".toList))) =
      (134 : Nat) ⌈/⌉ itemsPerPage
    ∧ numPagesForCategory (.ok (200, some ("Showing 1-70 of 134 items".toList))) = 2
    ∧ numPagesForCategory (.ok (200, some ("Showing all results".toList))) = 0
    ∧ numPagesForCategory (.ok (404, some ("Showing 1-70 of 134 items".toList))) = 0 :=
  ⟨(c4_category_pages.1 _ 134 (by decide) (by norm_num)).1,
   c4_category_pages.2.1 _ 134 2 (by decide) (by decide),
   c4_category_pages.2.2.2.2.1 _ (by decide),
   c4_category_pages.2.2.2.2.2.1 404 _ (by decide)⟩

/-! ### Claim C5: pagination by URL -/

/-- Claim C5: the by-URL pagination resolver returns the maximum over all
page-control element labels that parse as integers (the result is one of the
parsed labels and bounds all of them); it returns 1 when the control is
absent or no label parses, and 1 on any non-200 response or transport
exception. -/
theorem c5_url_pages :
    (∀ labels m, (labels.filterMap pyInt).max? = some m →
      numPagesForPageUrl (.ok (200, some labels)) = m
      ∧ m ∈ labels.filterMap pyInt
      ∧ ∀ x ∈ labels.filterMap pyInt, x ≤ m)
    ∧ (∀ labels, labels.filterMap pyInt = [] →
      numPagesForPageUrl (.ok (200, some labels)) = 1)
    ∧ numPagesForPageUrl (.ok (200, none)) = 1
    ∧ (∀ s p, s ≠ 200 → numPagesForPageUrl (.ok (s, p)) = 1)
    ∧ (∀ e, numPagesForPageUrl (.error e) = 1) := by
  refine ⟨?_, ?_, by simp [numPagesForPageUrl], ?_, ?_⟩
  · intro labels m h
    refine ⟨by simp [numPagesForPageUrl, h], ?_, ?_⟩
    · exact List.max?_mem (fun a b => max_choice a b) h
    · intro x hx
      exact (List.max?_le_iff (fun a b c => max_le_iff) h).mp le_rfl x hx
  · intro labels h
    simp [numPagesForPageUrl, h]
  · intro s p hs
    simp [numPagesForPageUrl, hs]
  · intro e
    rfl

/-- Witness for C5 at the spec's own example: labels 1, 2, 3, 5 yield 5, and
a control with no integer-parsable label yields 1. -/
theorem c5_url_pages_witness :
    numPagesForPageUrl (.ok (200, some (["1", "2", "3", "5"].map String.toList))) = 5
    ∧ numPagesForPageUrl (.ok (200, some (["→"].map String.toList))) = 1 :=
  ⟨(c5_url_pages.1 _ 5 (by decide)).1,
   c5_url_pages.2.1 _ (by decide)⟩

/-! ### Claim C6: malformed blocks never discard or reorder the page -/

theorem filterMap_eq_filter_filterMap {α β : Type} (f : α → Option β)
    (l : List α) :
    l.filterMap f = (l.filter (fun x => (f x).isSome)).filterMap f := by
  induction l with
  | nil => rfl
  | cons x xs ih =>
    cases hfx : f x <;>
      simp [List.filterMap_cons, List.filter_cons, hfx, ih]

theorem length_filterMap_eq_countP {α β : Type} (f : α → Option β)
    (l : List α) :
    (l.filterMap f).length = l.countP (fun x => (f x).isSome) := by
  induction l with
  | nil => rfl
  | cons x xs ih =>
    cases hfx : f x <;>
      simp [List.filterMap_cons, List.countP_cons, hfx, ih]

/-- Claim C6: on a 200 listing page, the parser's output is exactly the
successfully parsed image of the sublist of well-formed blocks, in their page
order — so with K well-formed and J malformed blocks interleaved it returns
exactly K records (one per well-formed block, in order), and a malformed
block never discards or reorders the rest. -/
theorem c6_parser_order (cat : Option (List Char)) (blocks : List MetaBlock) :
    scrapeArtworkData (.ok (200, blocks)) cat =
      (blocks.filter (fun b => (parseMetadataHtml b (cat.getD unknownStr)).isSome)).filterMap
        (fun b => parseMetadataHtml b (cat.getD unknownStr))
    ∧ (scrapeArtworkData (.ok (200, blocks)) cat).length =
      blocks.countP (fun b => (parseMetadataHtml b (cat.getD unknownStr)).isSome) := by
  constructor
  · simp only [scrapeArtworkData, if_pos rfl]
    exact filterMap_eq_filter_filterMap _ _
  · simp only [scrapeArtworkData, if_pos rfl]
    exact length_filterMap_eq_countP _ _

/-! ### Claim C7: detail-page link selection -/

theorem pickLink_skip {size : ImageSize} {xs r : List (Option (List Char))}
    (h : ∀ o ∈ xs, linkMatches size o = false) :
    pickLink size (xs ++ r) = pickLink size r := by
  induction xs with
  | nil => rfl
  | cons o xs ih =>
    have hrest : ∀ o ∈ xs, linkMatches size o = false :=
      fun o ho => h o (List.mem_cons_of_mem _ ho)
    cases o with
    | none =>
      rw [List.cons_append]
      simp only [pickLink]
      exact ih hrest
    | some dest =>
      have ho : (!dest.isEmpty && size.value.isPrefixOf dest) = false := by
        simpa [linkMatches] using h (some dest) (List.mem_cons_self _ _)
      rw [List.cons_append]
      simp only [pickLink, ho, Bool.false_eq_true, if_false]
      exact ih hrest

theorem pickLink_none {size : ImageSize} {l : List (Option (List Char))}
    (h : ∀ o ∈ l, linkMatches size o = false) :
    pickLink size l = none := by
  have h1 := pickLink_skip (r := []) h
  simpa using h1

/-- Claim C7: on a 200 detail page, `_image_link_from` returns the first
premium-download href (in document order) that matches the requested size
tier's URL prefix; it returns `none` when no candidate matches, and `none`
on any non-200 response or transport exception. -/
theorem c7_image_link (size : ImageSize) :
    (∀ xs d ys, (∀ o ∈ xs, linkMatches size o = false) →
      linkMatches size (some d) = true →
      imageLinkFrom size (.ok (200, xs ++ some d :: ys)) = some d)
    ∧ (∀ links, (∀ o ∈ links, linkMatches size o = false) →
      imageLinkFrom size (.ok (200, links)) = none)
    ∧ (∀ s links, s ≠ 200 → imageLinkFrom size (.ok (s, links)) = none)
    ∧ (∀ e, imageLinkFrom size (.error e) = none) := by
  refine ⟨?_, ?_, ?_, ?_⟩
  · intro xs d ys hxs hd
    have h1 : pickLink size (xs ++ some d :: ys) = pickLink size (some d :: ys) :=
      pickLink_skip hxs
    have h2 : (!d.isEmpty && size.value.isPrefixOf d) = true := by
      simpa [linkMatches] using hd
    simp [imageLinkFrom, h1, pickLink, h2]
  · intro links h
    simp [imageLinkFrom, pickLink_none h]
  · intro s links hs
    simp [imageLinkFrom, hs]
  · intro e
    rfl

/-- Witness for C7 at the spec's own example: among one MAX-prefixed and one
STANDARD-prefixed candidate, requesting STANDARD returns only the
STANDARD-prefixed link; with no matching candidate the resolver returns
`none`. -/
theorem c7_image_link_witness :
    imageLinkFrom .standard (.ok (200,
        [some ("https://mdl.artvee.com/hdl/a.jpg".toList),
         some ("https://mdl.artvee.com/sdl/a.jpg".toList)])) =
      some ("https://mdl.artvee.com/sdl/a.jpg".toList)
    ∧ imageLinkFrom .max (.ok (200,
        [some ("https://example.com/a.jpg".toList), none])) = none :=
  ⟨(c7_image_link .standard).1 [some ("https://mdl.artvee.com/hdl/a.jpg".toList)]
      ("https://mdl.artvee.com/sdl/a.jpg".toList) [] (by decide) (by decide),
   (c7_image_link .max).2.1 _ (by decide)⟩

end Artvee







